import Mathlib

/-!
Shallow embedding of the lab2-os4 kernel core: the task manager and
scheduler from `src/task/mod.rs` and the process-management syscalls from
`src/syscall/process.rs`.  Machine words (`usize`, `u8`, `u32`) are
embedded as `Nat` with explicit `% 2 ^ w` reductions where the Rust code
performs wrapping machine arithmetic.  Fallible operations (Rust
`Option`, paths that `unwrap`) are embedded with `Option`, where `none`
stands for the aborting branch.
-/

namespace OS4

/-! ### Address-space model

The memory-management primitives (`VirtAddr`, `VPNRange`,
`MemorySet::find_pte`, `MemorySet::insert_framed_area`,
`MemorySet::unmap`) live in the `mm` module, which is outside the two
embedded source files; they are modelled from the spec's Address Space
contract (spec section 4.1 and the data model of section 3). -/

/-- Modelled from the spec: the fixed page size, a power of two.  The
spec's end-to-end example maps one page with `len = 4096`, fixing the
page size at 4096 bytes. -/
def PAGE_SIZE : Nat := 4096

/-- Modelled from the spec: a page-table entry maps one virtual page
number to one physical page number plus a permission bitset.  The
permission bits use the positions of `MapPermission`:
R = bit 1, W = bit 2, X = bit 3, U = bit 4. -/
structure PageTableEntry where
  ppn : Nat
  perm : Nat
deriving DecidableEq

/-- Embeds `MapPermission::R` -/
def MapPermissionR : Nat := 2
/-- Embeds `MapPermission::W` -/
def MapPermissionW : Nat := 4
/-- Embeds `MapPermission::X` -/
def MapPermissionX : Nat := 8
/-- Embeds `MapPermission::U` -/
def MapPermissionU : Nat := 16
/-- The union of all `MapPermission` flag bits (`R | W | X | U`). -/
def MapPermissionMask : Nat := 30

/-- Embeds `MapPermission::from_bits` on a `u8`: `some` exactly when no bit
outside the declared flags is set. -/
def mapPermissionFromBits (b : Nat) : Option Nat :=
  if b &&& (255 - MapPermissionMask) = 0 then some b else none

/-- Modelled from the spec: an Address Space's page table, as the partial
map from virtual page numbers to entries; `none` means "unmapped". -/
def MemorySet : Type := Nat → Option PageTableEntry

/-- Embeds `MemorySet::find_pte`: the entry for a virtual page number, if present. -/
def findPte (ms : MemorySet) (vpn : Nat) : Option PageTableEntry := ms vpn

/-- Embeds `VirtAddr::floor`: the page number containing the address. -/
def floorVpn (va : Nat) : Nat := va / PAGE_SIZE

/-- Embeds `VirtAddr::ceil`: the first page number at or after the address. -/
def ceilVpn (va : Nat) : Nat := (va + PAGE_SIZE - 1) / PAGE_SIZE

/-- Embeds `VirtAddr::aligned`: the in-page offset is zero. -/
def aligned (va : Nat) : Bool := va % PAGE_SIZE == 0

/-- Embeds `VirtAddr::page_offset`. -/
def pageOffset (va : Nat) : Nat := va % PAGE_SIZE

/-- Embeds `VPNRange::new(l, r)` as the list of page numbers `l, l+1, ..., r-1`
that a `for vpn in vpn_range` loop visits. -/
def vpnList (l r : Nat) : List Nat := List.range' l (r - l)

/-- Modelled from the spec: `insert_framed_range(start_va, end_va, perm)`
installs, for every virtual page number in `[floor(start_va),
ceil(end_va))`, a valid entry carrying the given permission bits, backed
by a freshly allocated physical frame.  The external frame allocator
(assumed to never fail) is passed in as the function `alloc` giving the
frame chosen for each page. -/
def insertFramedArea (alloc : Nat → Nat) (ms : MemorySet)
    (startVa endVa perm : Nat) : MemorySet :=
  fun vpn =>
    if floorVpn startVa ≤ vpn ∧ vpn < ceilVpn endVa then
      some { ppn := alloc vpn, perm := perm }
    else ms vpn

/-- Modelled from the spec: `remove_range(vpn_range)` invalidates the
entry of every virtual page number in the range (the backing frame is
returned to the allocator, which the page table does not record). -/
def removeRange (ms : MemorySet) (l r : Nat) : MemorySet :=
  fun vpn => if l ≤ vpn ∧ vpn < r then none else ms vpn

/-- The `usize` value of Rust's `!0x7` (64-bit two's complement). -/
def NOT_0x7 : Nat := 2 ^ 64 - 8

/-- Embeds `sys_mmap(start, len, port)` acting on the current task's address
space `ms`.  `end_va` is the wrapping `usize` sum `_start + _len`.  The
result is `none` exactly on the `unwrap` panic branch of
`MapPermission::from_bits`, and `some (ret, ms')` otherwise. -/
def sysMmap (alloc : Nat → Nat) (ms : MemorySet) (start len port : Nat) :
    Option (Int × MemorySet) :=
  let end_va := (start + len) % 2 ^ 64
  if aligned start = false then some (-1, ms)
  else if port &&& NOT_0x7 ≠ 0 ∨ port &&& 0x7 = 0 then some (-1, ms)
  else
    let l := floorVpn start
    let r := ceilVpn end_va
    if (vpnList l r).any (fun vpn => (findPte ms vpn).isSome) then some (-1, ms)
    else
      match mapPermissionFromBits (port % 256 * 2 % 256) with
      | none => none
      | some bits =>
        let ms2 := insertFramedArea alloc ms start end_va (MapPermissionU ||| bits)
        if (vpnList l r).any (fun vpn => (findPte ms2 vpn).isNone) then
          some (-1, ms2)
        else some (0, ms2)

/-- Embeds `sys_munmap(start, len)` acting on the current task's address space. -/
def sysMunmap (ms : MemorySet) (start len : Nat) : Int × MemorySet :=
  let end_va := (start + len) % 2 ^ 64
  if aligned start = false then (-1, ms)
  else
    let l := floorVpn start
    let r := ceilVpn end_va
    if (vpnList l r).any (fun vpn => (findPte ms vpn).isNone) then (-1, ms)
    else (0, removeRange ms l r)

/-- Embeds `TaskManager::get_pa`: translate a user virtual address through the
current task's page table.  `none` is the panic branch of the `unwrap`
on `find_pte`. -/
def getPa (ms : MemorySet) (ptr : Nat) : Option Nat :=
  (findPte ms (floorVpn ptr)).map
    (fun pte => pageOffset ptr + pte.ppn * PAGE_SIZE)

/-- Embeds `TimeVal`: seconds and sub-second microseconds. -/
structure TimeVal where
  sec : Nat
  usec : Nat
deriving DecidableEq

/-- Embeds `sys_get_time(ts, tz)` given the sampled microsecond counter `us`:
translates `ts`, and on success yields the physical address written, the
`TimeVal` value stored there, and the return value.  `none` is the panic
branch of a failed translation. -/
def sysGetTime (ms : MemorySet) (ts us _tz : Nat) : Option (Nat × TimeVal × Int) :=
  (getPa ms ts).map
    (fun pa => (pa, { sec := us / 1000000, usec := us % 1000000 }, 0))

/-! ### Task manager model -/

/-- Embeds `TaskStatus` (declared in `task/task.rs`; the four variants are the
spec's three states plus the "not yet initialized" pre-state). -/
inductive TaskStatus where
  | UnInit
  | Ready
  | Running
  | Exited
deriving DecidableEq

/-- Embeds `TaskControlBlock`: status, per-syscall invocation counters (a
`[u32; MAX_SYSCALL_NUM]` array, embedded as a function kept below
`2 ^ 32` by wrapping updates), the optional first-scheduled timestamp,
and the task's address space.  The execution context and trap context are
opaque to every embedded operation and are omitted. -/
structure TaskControlBlock where
  task_status : TaskStatus
  syscall_times : Nat → Nat
  start_time : Option Nat
  memory_set : MemorySet

/-- Embeds `TaskManagerInner`: the ordered task list and the current task index.
(`TaskManager::num_app` always equals `tasks.len()` and is embedded as
`tasks.length`.) -/
structure TaskManagerInner where
  tasks : List TaskControlBlock
  current_task : Nat

/-- Out-of-bounds fallback; Rust indexing panics instead, but every
embedded operation only indexes in bounds. -/
def defaultTcb : TaskControlBlock :=
  { task_status := TaskStatus.UnInit
    syscall_times := fun _ => 0
    start_time := none
    memory_set := fun _ => none }

/-- Embeds `inner.tasks[i]`. -/
def getTcb (tm : TaskManagerInner) (i : Nat) : TaskControlBlock :=
  tm.tasks.getD i defaultTcb

/-- Embeds `inner.tasks[i].task_status`. -/
def statusAt (tm : TaskManagerInner) (i : Nat) : TaskStatus :=
  (getTcb tm i).task_status

/-- In-place mutation `inner.tasks[i] = f(inner.tasks[i])`. -/
def updateTcb (tm : TaskManagerInner) (i : Nat)
    (f : TaskControlBlock → TaskControlBlock) : TaskManagerInner :=
  { tm with tasks := tm.tasks.set i (f (getTcb tm i)) }

/-- Embeds `TaskManager::mark_current_suspended`. -/
def markCurrentSuspended (tm : TaskManagerInner) : TaskManagerInner :=
  updateTcb tm tm.current_task (fun t => { t with task_status := TaskStatus.Ready })

/-- Embeds `TaskManager::mark_current_exited`. -/
def markCurrentExited (tm : TaskManagerInner) : TaskManagerInner :=
  updateTcb tm tm.current_task (fun t => { t with task_status := TaskStatus.Exited })

/-- Embeds `TaskManager::find_next_task`: scan
`(current + 1 ..= current + num_app)`, reduce each index modulo
`num_app`, and take the first whose status is `Ready`. -/
def findNextTask (tm : TaskManagerInner) : Option Nat :=
  ((List.range' (tm.current_task + 1) tm.tasks.length).map
      (fun id => id % tm.tasks.length)).find?
    (fun id => decide (statusAt tm id = TaskStatus.Ready))

/-- Embeds `TaskManager::run_next_task` given the timer sample `now` taken when
a task is first scheduled: select the next `Ready` task, set it
`Running`, move `current_task` to it, and capture its first-scheduled
timestamp if still unset.  `none` is the fatal
"All applications completed!" halt. -/
def runNextTask (tm : TaskManagerInner) (now : Nat) : Option TaskManagerInner :=
  match findNextTask tm with
  | none => none
  | some next =>
    let tm2 := updateTcb tm next (fun t =>
      { t with
        task_status := TaskStatus.Running
        start_time := match t.start_time with
          | none => some now
          | some s => some s })
    some { tm2 with current_task := next }

/-- Embeds `TaskManager::run_first_task`: set task 0 `Running` and capture its
first-scheduled timestamp if still unset (`current_task` starts at 0). -/
def runFirstTask (tm : TaskManagerInner) (now : Nat) : TaskManagerInner :=
  updateTcb tm 0 (fun t =>
    { t with
      task_status := TaskStatus.Running
      start_time := match t.start_time with
        | none => some now
        | some s => some s })

/-- Embeds `TaskManager::update_syscall_time`: `syscall_times[syscall_id] += 1`
on the current task, wrapping at the `u32` width. -/
def updateSyscallTime (tm : TaskManagerInner) (syscall_id : Nat) : TaskManagerInner :=
  updateTcb tm tm.current_task (fun t =>
    { t with syscall_times := fun j =>
        if j = syscall_id then (t.syscall_times syscall_id + 1) % 2 ^ 32
        else t.syscall_times j })

/-- Modelled from the spec: `get_runtime` (in `timer.rs`, outside the
embedded files) reports the elapsed run time in milliseconds between the
first-scheduled microsecond timestamp and the current sample. -/
def getRuntime (start now : Nat) : Nat := (now - start) / 1000

/-- Embeds `TaskInfo`: status, syscall counters, elapsed milliseconds. -/
structure TaskInfo where
  status : TaskStatus
  syscall_times : Nat → Nat
  time : Nat

/-- Embeds `TaskManager::get_sys_task_info`: the `TaskInfo` value written
through the caller's pointer, given the timer sample `now`. -/
def getSysTaskInfo (tm : TaskManagerInner) (now : Nat) : TaskInfo :=
  let t := getTcb tm tm.current_task
  { status := TaskStatus.Running
    syscall_times := t.syscall_times
    time := match t.start_time with
      | some st => getRuntime st now
      | none => 0 }

/-- Modelled from the spec: `TaskControlBlock::new` (in `task/task.rs`,
outside the embedded files) builds each boot-time task `Ready`, with zero
syscall counters, no first-scheduled timestamp, and its loaded address
space. -/
def initTcb (ms : MemorySet) : TaskControlBlock :=
  { task_status := TaskStatus.Ready
    syscall_times := fun _ => 0
    start_time := none
    memory_set := ms }

/-- The `TASK_MANAGER` state built at boot: one `Ready` task per loaded
application, `current_task = 0`. -/
def initState (apps : List MemorySet) : TaskManagerInner :=
  { tasks := apps.map initTcb, current_task := 0 }

/-- States the task manager reaches once scheduling has started: boot via
`run_first_task`, then the kernel entry points that mutate it —
`suspend_current_and_run_next`, `exit_current_and_run_next`, the syscall
counter bump, and mutations of the current task's own address space
(mmap/munmap/typed writes). -/
inductive Reachable : TaskManagerInner → Prop where
  | boot (apps : List MemorySet) (now : Nat) (h : apps ≠ []) :
      Reachable (runFirstTask (initState apps) now)
  | stepSuspend (s s' : TaskManagerInner) (now : Nat) :
      Reachable s → runNextTask (markCurrentSuspended s) now = some s' →
      Reachable s'
  | stepExit (s s' : TaskManagerInner) (now : Nat) :
      Reachable s → runNextTask (markCurrentExited s) now = some s' →
      Reachable s'
  | stepCount (s : TaskManagerInner) (id : Nat) :
      Reachable s → Reachable (updateSyscallTime s id)
  | stepMem (s : TaskManagerInner) (ms : MemorySet) :
      Reachable s →
      Reachable (updateTcb s s.current_task (fun t => { t with memory_set := ms }))

/-- The scheduler's single-`Running`-owner invariant: every `Running`
slot is the current one. -/
def Inv (tm : TaskManagerInner) : Prop :=
  ∀ i < tm.tasks.length, statusAt tm i = TaskStatus.Running → i = tm.current_task

/-! ### Helper lemmas -/

theorem mem_vpnList (l r vpn : Nat) : vpn ∈ vpnList l r ↔ l ≤ vpn ∧ vpn < r := by
  simp only [vpnList, List.mem_range']
  constructor
  · rintro ⟨i, hi, rfl⟩
    omega
  · intro h
    exact ⟨vpn - l, by omega, by omega⟩

theorem tasks_updateTcb (tm : TaskManagerInner) (i : Nat)
    (f : TaskControlBlock → TaskControlBlock) :
    (updateTcb tm i f).tasks.length = tm.tasks.length := by
  simp [updateTcb]

theorem current_updateTcb (tm : TaskManagerInner) (i : Nat)
    (f : TaskControlBlock → TaskControlBlock) :
    (updateTcb tm i f).current_task = tm.current_task := rfl

theorem getTcb_updateTcb (tm : TaskManagerInner) (i : Nat)
    (f : TaskControlBlock → TaskControlBlock) (j : Nat) :
    getTcb (updateTcb tm i f) j =
      if i = j ∧ i < tm.tasks.length then f (getTcb tm i) else getTcb tm j := by
  unfold getTcb updateTcb
  simp only [List.getD_eq_getElem?_getD, List.getElem?_set]
  by_cases h : i = j
  · subst h
    by_cases hl : i < tm.tasks.length
    · simp only [hl, if_true]
      exact congrArg f (by simp [getTcb, List.getD_eq_getElem?_getD,
        List.getElem?_eq_getElem hl])
    · simp [hl, List.getElem?_eq_none (Nat.le_of_not_lt hl)]
  · simp [h]

theorem statusAt_updateTcb (tm : TaskManagerInner) (i : Nat)
    (f : TaskControlBlock → TaskControlBlock) (j : Nat) :
    statusAt (updateTcb tm i f) j =
      if i = j ∧ i < tm.tasks.length then (f (getTcb tm i)).task_status
      else statusAt tm j := by
  unfold statusAt
  rw [getTcb_updateTcb, apply_ite TaskControlBlock.task_status]

/-- Bits `3..63` of a `usize` clear (`port & !0x7 == 0`) forces the
value below 8. -/
theorem lt_eight_of_land_NOT_0x7 (port : Nat) (h64 : port < 2 ^ 64)
    (hp : port &&& NOT_0x7 = 0) : port < 8 := by
  have h8 : port < 2 ^ 3 := by
    apply Nat.lt_pow_two_of_testBit
    intro i hi
    by_cases hi64 : 64 ≤ i
    · exact Nat.testBit_lt_two_pow
        (Nat.lt_of_lt_of_le h64 (Nat.pow_le_pow_right (by norm_num) hi64))
    · have hbit : Nat.testBit NOT_0x7 i = true := by
        have hrw : NOT_0x7 = (2 ^ 61 - 1) <<< 3 := by
          norm_num [NOT_0x7, Nat.shiftLeft_eq]
        rw [hrw, Nat.testBit_shiftLeft, Nat.testBit_two_pow_sub_one]
        have : i - 3 < 61 := by omega
        simp [hi, this]
      have h := congrArg (fun x => Nat.testBit x i) hp
      simp only [Nat.testBit_land, Nat.zero_testBit, hbit, Bool.and_true] at h
      exact h
  omega

theorem land_seven_of_lt_eight (port : Nat) (h8 : port < 8) :
    port &&& 7 = port := by
  have h := Nat.and_pow_two_sub_one_of_lt_two_pow (show port < 2 ^ 3 by omega)
  norm_num at h
  exact h

theorem land_seven_ne_zero_imp (port : Nat) (h8 : port < 8)
    (hp : port &&& 7 ≠ 0) : port ≠ 0 := by
  rw [land_seven_of_lt_eight port h8] at hp
  exact hp

/-- Under a valid `port`, the `u8` flag byte `(port as u8) << 1` only
carries declared `MapPermission` bits, so `from_bits` succeeds. -/
theorem fromBits_of_valid_port (port : Nat) (h8 : port < 8) :
    mapPermissionFromBits (port % 256 * 2 % 256) = some (port * 2) := by
  have h1 : port % 256 = port := Nat.mod_eq_of_lt (by omega)
  have h2 : port * 2 % 256 = port * 2 := Nat.mod_eq_of_lt (by omega)
  rw [h1, h2]
  unfold mapPermissionFromBits MapPermissionMask
  interval_cases port <;> decide

/-- The permission word `U | ((port as u8) << 1)` carries the
User-accessible bit plus exactly the requested R/W/X bits. -/
theorem permBitsSpec (port : Nat) (h8 : port < 8) :
    (MapPermissionU ||| port * 2) &&& MapPermissionU ≠ 0 ∧
    (((MapPermissionU ||| port * 2) &&& MapPermissionR ≠ 0) ↔ port &&& 1 ≠ 0) ∧
    (((MapPermissionU ||| port * 2) &&& MapPermissionW ≠ 0) ↔ port &&& 2 ≠ 0) ∧
    (((MapPermissionU ||| port * 2) &&& MapPermissionX ≠ 0) ↔ port &&& 4 ≠ 0) := by
  unfold MapPermissionU MapPermissionR MapPermissionW MapPermissionX
  interval_cases port <;> exact (by decide)

/-- With valid arguments, `sys_mmap` reduces to the overlap check
followed by the installation; the defensive post-check never fires. -/
theorem sysMmap_reduce (alloc : Nat → Nat) (ms : MemorySet) (start len port : Nat)
    (hal : aligned start = true)
    (hp1 : port &&& NOT_0x7 = 0)
    (hp2 : port &&& 0x7 ≠ 0)
    (h8 : port < 8) :
    sysMmap alloc ms start len port =
      if (vpnList (floorVpn start) (ceilVpn ((start + len) % 2 ^ 64))).any
          (fun vpn => (findPte ms vpn).isSome) then some (-1, ms)
      else some (0, insertFramedArea alloc ms start ((start + len) % 2 ^ 64)
          (MapPermissionU ||| port * 2)) := by
  have hpost : ((vpnList (floorVpn start) (ceilVpn ((start + len) % 2 ^ 64))).any
      (fun vpn => (findPte (insertFramedArea alloc ms start ((start + len) % 2 ^ 64)
        (MapPermissionU ||| port * 2)) vpn).isNone)) = false := by
    rw [List.any_eq_false]
    intro vpn hmem
    rw [mem_vpnList] at hmem
    have hfe : findPte (insertFramedArea alloc ms start ((start + len) % 2 ^ 64)
        (MapPermissionU ||| port * 2)) vpn =
        some { ppn := alloc vpn, perm := MapPermissionU ||| port * 2 } := by
      show (if floorVpn start ≤ vpn ∧ vpn < ceilVpn ((start + len) % 2 ^ 64) then
        some { ppn := alloc vpn, perm := MapPermissionU ||| port * 2 } else ms vpn) = _
      rw [if_pos ⟨hmem.1, hmem.2⟩]
    rw [hfe]
    simp
  unfold sysMmap
  rw [if_neg (by simp [hal])]
  rw [if_neg (fun h => h.elim (fun hc => hc hp1) (fun hc => hp2 hc))]
  rw [fromBits_of_valid_port port h8]
  by_cases hc : ((vpnList (floorVpn start) (ceilVpn ((start + len) % 2 ^ 64))).any
      (fun vpn => (findPte ms vpn).isSome)) = true
  · rw [if_pos hc, if_pos hc]
  · rw [if_neg hc, if_neg hc]
    simp only [hpost, Bool.false_eq_true, if_false]

/-! ### C1: successful sys_mmap -/

/-- C1: for page-aligned `start`, any `len`, and valid `port`,
`sys_mmap` returns 0 exactly when no page of
`[floor(start), ceil(start+len))` is already mapped; on success every
page of the range is mapped with permission User-accessible plus the
requested readable/writable/executable bits. -/
theorem mmapSpec (alloc : Nat → Nat) (ms : MemorySet) (start len port : Nat)
    (h64 : port < 2 ^ 64)
    (ha : start % PAGE_SIZE = 0)
    (hp1 : port &&& NOT_0x7 = 0)
    (hp2 : port &&& 0x7 ≠ 0) :
    ((∃ ms2, sysMmap alloc ms start len port = some (0, ms2)) ↔
      (∀ vpn, vpn < ceilVpn ((start + len) % 2 ^ 64) → floorVpn start ≤ vpn →
        findPte ms vpn = none)) ∧
    (∀ ms2, sysMmap alloc ms start len port = some (0, ms2) →
      ∀ vpn, vpn < ceilVpn ((start + len) % 2 ^ 64) → floorVpn start ≤ vpn →
        ∃ pte, findPte ms2 vpn = some pte ∧
          pte.perm &&& MapPermissionU ≠ 0 ∧
          ((pte.perm &&& MapPermissionR ≠ 0) ↔ port &&& 1 ≠ 0) ∧
          ((pte.perm &&& MapPermissionW ≠ 0) ↔ port &&& 2 ≠ 0) ∧
          ((pte.perm &&& MapPermissionX ≠ 0) ↔ port &&& 4 ≠ 0)) := by
  have h8 : port < 8 := lt_eight_of_land_NOT_0x7 port h64 hp1
  have hal : aligned start = true := by simp [aligned, ha]
  have hred := sysMmap_reduce alloc ms start len port hal hp1 hp2 h8
  by_cases hc : ((vpnList (floorVpn start) (ceilVpn ((start + len) % 2 ^ 64))).any
      (fun vpn => (findPte ms vpn).isSome)) = true
  · rw [if_pos hc] at hred
    constructor
    · constructor
      · rintro ⟨ms2, hms2⟩
        rw [hred] at hms2
        have h0 : (-1 : Int) = 0 := congrArg Prod.fst (Option.some.inj hms2)
        exact absurd h0 (by decide)
      · intro hall
        obtain ⟨vpn, hmem, hsome⟩ := List.any_eq_true.mp hc
        rw [mem_vpnList] at hmem
        rw [hall vpn hmem.2 hmem.1] at hsome
        exact absurd hsome (by decide)
    · intro ms2 hms2
      rw [hred] at hms2
      have h0 : (-1 : Int) = 0 := congrArg Prod.fst (Option.some.inj hms2)
      exact absurd h0 (by decide)
  · rw [if_neg hc] at hred
    rw [Bool.not_eq_true, List.any_eq_false] at hc
    constructor
    · constructor
      · intro _ vpn hr hl
        have hn := hc vpn (by rw [mem_vpnList]; exact ⟨hl, hr⟩)
        rw [Option.not_isSome_iff_eq_none] at hn
        exact hn
      · intro _
        exact ⟨_, hred⟩
    · intro ms2 hms2 vpn hr hl
      rw [hred] at hms2
      have hmseq : insertFramedArea alloc ms start ((start + len) % 2 ^ 64)
          (MapPermissionU ||| port * 2) = ms2 :=
        congrArg Prod.snd (Option.some.inj hms2)
      refine ⟨{ ppn := alloc vpn, perm := MapPermissionU ||| port * 2 }, ?_,
        permBitsSpec port h8⟩
      rw [← hmseq]
      show (if floorVpn start ≤ vpn ∧ vpn < ceilVpn ((start + len) % 2 ^ 64) then
        some { ppn := alloc vpn, perm := MapPermissionU ||| port * 2 } else ms vpn) = _
      rw [if_pos ⟨hl, hr⟩]

def emptyMs : MemorySet := fun _ => none

def allocEx : Nat → Nat := fun vpn => vpn + 100

/-- Witness for C1: mapping one fresh page succeeds. -/
theorem mmapSpec_witness :
    ∃ ms2, sysMmap allocEx emptyMs 65536 4096 3 = some (0, ms2) :=
  (mmapSpec allocEx emptyMs 65536 4096 3 (by decide) (by decide) (by decide)
    (by decide)).1.mpr (by decide)

/-! ### C5: sys_mmap argument validation -/

/-- C5: a misaligned `start`, a `port` with bits above bit 2, or a
zero-permission `port` makes `sys_mmap` return -1 with the address space
unchanged, as an ordinary error result. -/
theorem mmapRejectSpec (alloc : Nat → Nat) (ms : MemorySet) (start len port : Nat)
    (h64 : port < 2 ^ 64)
    (h : start % PAGE_SIZE ≠ 0 ∨ 8 ≤ port ∨ port &&& 0x7 = 0) :
    sysMmap alloc ms start len port = some (-1, ms) := by
  unfold sysMmap
  rcases h with h | h | h
  · rw [if_pos (by simp [aligned, h])]
  · by_cases hal : aligned start = false
    · rw [if_pos hal]
    · rw [if_neg hal]
      rw [if_pos (Or.inl (fun h0 =>
        absurd (lt_eight_of_land_NOT_0x7 port h64 h0) (by omega)))]
  · by_cases hal : aligned start = false
    · rw [if_pos hal]
    · rw [if_neg hal]
      rw [if_pos (Or.inr h)]

/-- Witness for C5 at a misaligned start address. -/
theorem mmapRejectSpec_witness :
    sysMmap allocEx emptyMs 5 100 3 = some (-1, emptyMs) :=
  mmapRejectSpec allocEx emptyMs 5 100 3 (by decide) (Or.inl (by decide))

/-! ### C2: sys_munmap -/

/-- C2: `sys_munmap` returns 0 exactly when `start` is page-aligned and
every page of the rounded range is mapped; on success every page of the
range is unmapped afterwards, and on failure the address space is
untouched (mapped-ness is fully checked before any removal). -/
theorem munmapSpec (ms : MemorySet) (start len : Nat) :
    ((sysMunmap ms start len).fst = 0 ↔
      (start % PAGE_SIZE = 0 ∧
        ∀ vpn, vpn < ceilVpn ((start + len) % 2 ^ 64) → floorVpn start ≤ vpn →
          (findPte ms vpn).isSome = true)) ∧
    ((sysMunmap ms start len).fst = 0 →
      ∀ vpn, vpn < ceilVpn ((start + len) % 2 ^ 64) → floorVpn start ≤ vpn →
        findPte (sysMunmap ms start len).snd vpn = none) ∧
    ((sysMunmap ms start len).fst ≠ 0 →
      (sysMunmap ms start len).fst = -1 ∧ (sysMunmap ms start len).snd = ms) := by
  by_cases hal : aligned start = false
  · have hred : sysMunmap ms start len = (-1, ms) := by
      unfold sysMunmap
      rw [if_pos hal]
    have hne : start % PAGE_SIZE ≠ 0 := by
      unfold aligned at hal
      rw [beq_eq_false_iff_ne] at hal
      exact hal
    rw [hred]
    refine ⟨⟨?_, ?_⟩, ?_, fun _ => ⟨rfl, rfl⟩⟩
    · intro h
      have h0 : (-1 : Int) = 0 := h
      exact absurd h0 (by decide)
    · intro h
      exact absurd h.1 hne
    · intro h
      have h0 : (-1 : Int) = 0 := h
      exact absurd h0 (by decide)
  · have ha : start % PAGE_SIZE = 0 := by
      revert hal
      unfold aligned
      rcases Nat.eq_zero_or_pos (start % PAGE_SIZE) with h | h
      · intro _
        exact h
      · intro hal
        rw [beq_eq_false_iff_ne] at hal
        exact absurd (fun he => hal he) (fun hk => hk (by omega))
    by_cases hc : ((vpnList (floorVpn start) (ceilVpn ((start + len) % 2 ^ 64))).any
        (fun vpn => (findPte ms vpn).isNone)) = true
    · have hred : sysMunmap ms start len = (-1, ms) := by
        unfold sysMunmap
        rw [if_neg hal, if_pos hc]
      rw [hred]
      refine ⟨⟨?_, ?_⟩, ?_, fun _ => ⟨rfl, rfl⟩⟩
      · intro h
        have h0 : (-1 : Int) = 0 := h
        exact absurd h0 (by decide)
      · intro h
        obtain ⟨vpn, hmem, hnone⟩ := List.any_eq_true.mp hc
        rw [mem_vpnList] at hmem
        have hsome := h.2 vpn hmem.2 hmem.1
        rw [Option.isNone_iff_eq_none] at hnone
        rw [hnone] at hsome
        exact absurd hsome (by decide)
      · intro h
        have h0 : (-1 : Int) = 0 := h
        exact absurd h0 (by decide)
    · have hred : sysMunmap ms start len =
          (0, removeRange ms (floorVpn start) (ceilVpn ((start + len) % 2 ^ 64))) := by
        unfold sysMunmap
        rw [if_neg hal, if_neg hc]
      rw [Bool.not_eq_true, List.any_eq_false] at hc
      rw [hred]
      refine ⟨⟨fun _ => ⟨ha, ?_⟩, fun _ => rfl⟩, fun _ vpn hr hl => ?_, fun h => absurd rfl h⟩
      · intro vpn hr hl
        have hn := hc vpn (by rw [mem_vpnList]; exact ⟨hl, hr⟩)
        cases hx : findPte ms vpn with
        | none =>
          rw [hx] at hn
          exact absurd rfl hn
        | some pte => rfl
      · show (if floorVpn start ≤ vpn ∧ vpn < ceilVpn ((start + len) % 2 ^ 64) then
          none else ms vpn) = none
        rw [if_pos ⟨hl, hr⟩]

def ms1 : MemorySet := fun vpn => if vpn = 16 then some { ppn := 7, perm := 0 } else none

/-- Witness for C2: unmapping a singly mapped page empties it. -/
theorem munmapSpec_witness :
    findPte (sysMunmap ms1 65536 4096).snd 16 = none :=
  (munmapSpec ms1 65536 4096).2.1 (by decide) 16 (by decide) (by decide)

/-- Characterization: `List.find?` returns the element at the first index satisfying the
predicate. -/
theorem find?_eq_some_iff_first {α : Type} (p : α → Bool) :
    ∀ (l : List α) (b : α), l.find? p = some b ↔
      ∃ i : Nat, ∃ h : i < l.length, l[i] = b ∧ p b = true ∧
        ∀ j : Nat, ∀ hj : j < i, p (l[j]) = false := by
  intro l
  induction l with
  | nil =>
    intro b
    constructor
    · intro h
      exact absurd h (by simp)
    · rintro ⟨i, h, _⟩
      exact absurd h (Nat.not_lt_zero i)
  | cons a l ih =>
    intro b
    by_cases hpa : p a = true
    · rw [List.find?_cons_of_pos l hpa]
      constructor
      · intro h
        refine ⟨0, Nat.succ_pos _, Option.some.inj h, ?_, ?_⟩
        · rw [← Option.some.inj h]
          exact hpa
        · intro j hj
          exact absurd hj (Nat.not_lt_zero j)
      · rintro ⟨i, h, hget, hpb, hmin⟩
        cases i with
        | zero => exact congrArg some hget
        | succ i =>
          have hz2 : p a = false := hmin 0 (Nat.succ_pos i)
          rw [hpa] at hz2
          exact absurd hz2 (by decide)
    · rw [List.find?_cons_of_neg l hpa]
      have hpa2 : p a = false := by
        revert hpa
        cases p a <;> simp
      rw [ih b]
      constructor
      · rintro ⟨i, h, hget, hpb, hmin⟩
        refine ⟨i + 1, Nat.succ_lt_succ h, hget, hpb, ?_⟩
        intro j hj
        cases j with
        | zero => exact hpa2
        | succ j => exact hmin j (Nat.lt_of_succ_lt_succ hj)
      · rintro ⟨i, h, hget, hpb, hmin⟩
        cases i with
        | zero =>
          have hget2 : a = b := hget
          rw [← hget2] at hpb
          rw [hpa2] at hpb
          exact absurd hpb (by decide)
        | succ i =>
          refine ⟨i, Nat.lt_of_succ_lt_succ h, hget, hpb, ?_⟩
          intro j hj
          exact hmin (j + 1) (Nat.succ_lt_succ hj)

/-- Every slot index is hit by the wrap-around scan. -/
theorem mod_scan_surjective (c n i : Nat) (hi : i < n) :
    ∃ k, k < n ∧ (c + 1 + k) % n = i := by
  have hn : 0 < n := Nat.lt_of_le_of_lt (Nat.zero_le i) hi
  have hc1 : (c + 1) % n < n := Nat.mod_lt _ hn
  refine ⟨(i + n - (c + 1) % n) % n, Nat.mod_lt _ hn, ?_⟩
  rw [Nat.add_mod_mod]
  have hqd := Nat.div_add_mod (c + 1) n
  have h2 : c + 1 + (i + n - (c + 1) % n) = n * ((c + 1) / n) + (i + n) := by omega
  rw [h2, Nat.mul_add_mod, Nat.add_mod_right]
  exact Nat.mod_eq_of_lt hi

/-- Helper: `find_next_task` yields only in-range `Ready` slots. -/
theorem findNextTask_some (tm : TaskManagerInner) (j : Nat)
    (h : findNextTask tm = some j) :
    j < tm.tasks.length ∧ statusAt tm j = TaskStatus.Ready := by
  unfold findNextTask at h
  have hp := List.find?_some h
  have hmem := List.mem_of_find?_eq_some h
  obtain ⟨a, ha, heq⟩ := List.mem_map.mp hmem
  obtain ⟨i2, hi2, ha2⟩ := List.mem_range'.mp ha
  have hn : 0 < tm.tasks.length := Nat.lt_of_le_of_lt (Nat.zero_le i2) hi2
  rw [← heq]
  exact ⟨Nat.mod_lt _ hn, by rw [heq]; exact of_decide_eq_true hp⟩

/-! ### C3: round-robin selection -/

/-- C3: `find_next_task` scans indices `(current+1) % n, (current+2) % n,
...` through all `n` slots and returns the first `Ready` one;
`run_next_task` halts the whole system fatally (modelled `none`) exactly
when no task is `Ready`. -/
theorem schedulerScanSpec (tm : TaskManagerInner) (now : Nat) :
    (∀ j, findNextTask tm = some j ↔
      ∃ k, k < tm.tasks.length ∧ j = (tm.current_task + 1 + k) % tm.tasks.length ∧
        statusAt tm j = TaskStatus.Ready ∧
        ∀ k2, k2 < k →
          statusAt tm ((tm.current_task + 1 + k2) % tm.tasks.length) ≠
            TaskStatus.Ready) ∧
    (runNextTask tm now = none ↔
      ∀ i, i < tm.tasks.length → statusAt tm i ≠ TaskStatus.Ready) := by
  constructor
  · intro j
    rw [findNextTask, find?_eq_some_iff_first]
    constructor
    · rintro ⟨i, h, hget, hpb, hmin⟩
      have hlen : i < tm.tasks.length := by simpa using h
      refine ⟨i, hlen, ?_, of_decide_eq_true hpb, ?_⟩
      · simp only [List.getElem_map, List.getElem_range', Nat.one_mul] at hget
        exact hget.symm
      · intro k2 hk2
        have hf := hmin k2 hk2
        simp only [List.getElem_map, List.getElem_range', Nat.one_mul] at hf
        exact of_decide_eq_false hf
    · rintro ⟨k, hk, hj, hready, hmin⟩
      refine ⟨k, by simpa using hk, ?_, decide_eq_true hready, ?_⟩
      · simp only [List.getElem_map, List.getElem_range', Nat.one_mul]
        exact hj.symm
      · intro j2 hj2
        simp only [List.getElem_map, List.getElem_range', Nat.one_mul]
        exact decide_eq_false (hmin j2 hj2)
  · have hrn : runNextTask tm now = none ↔ findNextTask tm = none := by
      unfold runNextTask
      cases h : findNextTask tm with
      | none => simp
      | some next => simp
    rw [hrn, findNextTask, List.find?_eq_none]
    constructor
    · intro hnone i hi hready
      obtain ⟨k, hk, hik⟩ := mod_scan_surjective tm.current_task tm.tasks.length i hi
      have hx : (tm.current_task + 1 + k) % tm.tasks.length ∈
          (List.range' (tm.current_task + 1) tm.tasks.length).map
            (fun id => id % tm.tasks.length) := by
        apply List.mem_map.mpr
        refine ⟨tm.current_task + 1 + k, ?_, rfl⟩
        rw [List.mem_range']
        exact ⟨k, hk, by omega⟩
      have := hnone _ hx
      rw [hik] at this
      exact this (decide_eq_true hready)
    · intro hall x hx
      obtain ⟨a, ha, heq⟩ := List.mem_map.mp hx
      obtain ⟨i2, hi2, ha2⟩ := List.mem_range'.mp ha
      have hn : 0 < tm.tasks.length := Nat.lt_of_le_of_lt (Nat.zero_le i2) hi2
      intro hdec
      exact hall x (by rw [← heq]; exact Nat.mod_lt _ hn) (of_decide_eq_true hdec)

def tcbRunningEx : TaskControlBlock :=
  { task_status := TaskStatus.Running
    syscall_times := fun _ => 0
    start_time := some 0
    memory_set := emptyMs }

def tcbReadyEx : TaskControlBlock :=
  { task_status := TaskStatus.Ready
    syscall_times := fun _ => 0
    start_time := none
    memory_set := emptyMs }

def tmEx2 : TaskManagerInner := { tasks := [tcbRunningEx, tcbReadyEx], current_task := 0 }

/-- Witness for C3: with task 0 running and task 1 ready, the scan
selects task 1. -/
theorem schedulerScanSpec_witness : findNextTask tmEx2 = some 1 :=
  ((schedulerScanSpec tmEx2 0).1 1).mpr
    ⟨0, by decide, by decide, by decide,
      fun k2 hk2 => absurd hk2 (Nat.not_lt_zero k2)⟩

theorem getTcb_setCurrent (tmi : TaskManagerInner) (c i : Nat) :
    getTcb { tmi with current_task := c } i = getTcb tmi i := rfl

theorem statusAt_setCurrent (tmi : TaskManagerInner) (c i : Nat) :
    statusAt { tmi with current_task := c } i = statusAt tmi i := rfl

/-- Shape of a successful `run_next_task`. -/
theorem runNextTask_eq (tm : TaskManagerInner) (now : Nat) (tm2 : TaskManagerInner)
    (h : runNextTask tm now = some tm2) :
    ∃ next, findNextTask tm = some next ∧
      tm2 = { updateTcb tm next (fun t =>
        { t with
          task_status := TaskStatus.Running
          start_time := match t.start_time with
            | none => some now
            | some s => some s }) with current_task := next } := by
  unfold runNextTask at h
  cases hf : findNextTask tm with
  | none =>
    rw [hf] at h
    exact absurd h (by simp)
  | some next =>
    rw [hf] at h
    exact ⟨next, rfl, (Option.some.inj h).symm⟩

/-! ### C9: the first-scheduled timestamp is captured exactly once -/

/-- C9: the first time a task is chosen to run (including task 0 at
boot) its first-scheduled timestamp is captured; every later transition
of a task into `Running` leaves an already-captured timestamp
unchanged. -/
theorem startTimeSpec :
    (∀ tm now tm2, runNextTask tm now = some tm2 →
      ∀ i t0, (getTcb tm i).start_time = some t0 →
        (getTcb tm2 i).start_time = some t0) ∧
    (∀ tm now tm2, runNextTask tm now = some tm2 →
      (getTcb tm tm2.current_task).start_time = none →
      (getTcb tm2 tm2.current_task).start_time = some now) ∧
    (∀ tm now, (getTcb tm 0).start_time = none → 0 < tm.tasks.length →
      (getTcb (runFirstTask tm now) 0).start_time = some now) ∧
    (∀ tm now i t0, (getTcb tm i).start_time = some t0 →
      (getTcb (runFirstTask tm now) i).start_time = some t0) := by
  refine ⟨?_, ?_, ?_, ?_⟩
  · intro tm now tm2 h i t0 ht
    obtain ⟨next, hf, rfl⟩ := runNextTask_eq tm now tm2 h
    rw [getTcb_setCurrent, getTcb_updateTcb]
    by_cases hc : next = i ∧ next < tm.tasks.length
    · rw [if_pos hc]
      show (match (getTcb tm next).start_time with
        | none => some now
        | some s => some s) = some t0
      rw [hc.1, ht]
    · rw [if_neg hc]
      exact ht
  · intro tm now tm2 h ht
    obtain ⟨next, hf, rfl⟩ := runNextTask_eq tm now tm2 h
    have hlen : next < tm.tasks.length := (findNextTask_some tm next hf).1
    have ht2 : (getTcb tm next).start_time = none := ht
    show (getTcb (updateTcb tm next (fun t =>
      { t with
        task_status := TaskStatus.Running
        start_time := match t.start_time with
          | none => some now
          | some s => some s })) next).start_time = some now
    rw [getTcb_updateTcb, if_pos ⟨rfl, hlen⟩]
    show (match (getTcb tm next).start_time with
      | none => some now
      | some s => some s) = some now
    rw [ht2]
  · intro tm now ht hlen
    unfold runFirstTask
    rw [getTcb_updateTcb, if_pos ⟨rfl, hlen⟩]
    show (match (getTcb tm 0).start_time with
      | none => some now
      | some s => some s) = some now
    rw [ht]
  · intro tm now i t0 ht
    unfold runFirstTask
    rw [getTcb_updateTcb]
    by_cases hc : 0 = i ∧ 0 < tm.tasks.length
    · rw [if_pos hc]
      show (match (getTcb tm 0).start_time with
        | none => some now
        | some s => some s) = some t0
      rw [hc.1, ht]
    · rw [if_neg hc]
      exact ht

theorem statusAt_updateTcb_keep (tm : TaskManagerInner) (i : Nat)
    (f : TaskControlBlock → TaskControlBlock) (j : Nat)
    (hf : ∀ t, (f t).task_status = t.task_status) :
    statusAt (updateTcb tm i f) j = statusAt tm j := by
  rw [statusAt_updateTcb]
  by_cases h : i = j ∧ i < tm.tasks.length
  · rw [if_pos h, hf (getTcb tm i)]
    show statusAt tm i = statusAt tm j
    rw [h.1]
  · rw [if_neg h]

/-- Writing any status into the current slot keeps every `Running` slot
equal to the current one. -/
theorem inv_setCurrentStatus (tm : TaskManagerInner) (st : TaskStatus)
    (h : Inv tm) :
    Inv (updateTcb tm tm.current_task (fun t => { t with task_status := st })) := by
  intro i hi hrun
  have hi2 : i < tm.tasks.length := by simpa [updateTcb] using hi
  show i = tm.current_task
  rw [statusAt_updateTcb] at hrun
  by_cases hc : tm.current_task = i ∧ tm.current_task < tm.tasks.length
  · exact hc.1.symm
  · rw [if_neg hc] at hrun
    exact h i hi2 hrun

theorem inv_markCurrentSuspended (tm : TaskManagerInner) (h : Inv tm) :
    Inv (markCurrentSuspended tm) :=
  inv_setCurrentStatus tm TaskStatus.Ready h

theorem inv_markCurrentExited (tm : TaskManagerInner) (h : Inv tm) :
    Inv (markCurrentExited tm) :=
  inv_setCurrentStatus tm TaskStatus.Exited h

/-- A successful `run_next_task` from a state whose current slot is not
`Running` re-establishes the single-owner invariant with the new current
slot `Running`. -/
theorem inv_runNextTask (tm : TaskManagerInner) (now : Nat) (tm2 : TaskManagerInner)
    (h : Inv tm)
    (hnr : statusAt tm tm.current_task ≠ TaskStatus.Running)
    (hr : runNextTask tm now = some tm2) :
    Inv tm2 ∧ statusAt tm2 tm2.current_task = TaskStatus.Running ∧
      tm2.current_task < tm2.tasks.length ∧ tm2.tasks.length = tm.tasks.length := by
  obtain ⟨next, hf, rfl⟩ := runNextTask_eq tm now tm2 hr
  have hlen : next < tm.tasks.length := (findNextTask_some tm next hf).1
  refine ⟨?_, ?_, ?_, ?_⟩
  · intro i hi hrun
    have hi2 : i < tm.tasks.length := by simpa [updateTcb] using hi
    show i = next
    rw [statusAt_setCurrent, statusAt_updateTcb] at hrun
    by_cases hc : next = i ∧ next < tm.tasks.length
    · exact hc.1.symm
    · rw [if_neg hc] at hrun
      have hi0 := h i hi2 hrun
      rw [← hi0] at hnr
      exact absurd hrun hnr
  · show statusAt _ next = TaskStatus.Running
    rw [statusAt_setCurrent, statusAt_updateTcb, if_pos ⟨rfl, hlen⟩]
  · show next < (updateTcb tm next (fun t =>
      { t with
        task_status := TaskStatus.Running
        start_time := match t.start_time with
          | none => some now
          | some s => some s })).tasks.length
    rw [tasks_updateTcb]
    exact hlen
  · show (updateTcb tm next (fun t =>
      { t with
        task_status := TaskStatus.Running
        start_time := match t.start_time with
          | none => some now
          | some s => some s })).tasks.length = tm.tasks.length
    rw [tasks_updateTcb]

theorem statusAt_initState (apps : List MemorySet) (i : Nat) (hi : i < apps.length) :
    statusAt (initState apps) i = TaskStatus.Ready := by
  unfold statusAt getTcb initState
  rw [List.getD_eq_getElem?_getD, List.getElem?_map, List.getElem?_eq_getElem hi]
  rfl

/-- Every reachable state satisfies the single-owner invariant, with the
current slot `Running` and in range. -/
theorem reachable_good (s : TaskManagerInner) (h : Reachable s) :
    Inv s ∧ statusAt s s.current_task = TaskStatus.Running ∧
      s.current_task < s.tasks.length := by
  induction h with
  | boot apps now hne =>
    have hlen : 0 < (initState apps).tasks.length := by
      simpa [initState] using List.length_pos.mpr hne
    refine ⟨?_, ?_, ?_⟩
    · intro i hi hrun
      have hi2 : i < (initState apps).tasks.length := by
        simpa [runFirstTask, updateTcb] using hi
      show i = (initState apps).current_task
      unfold runFirstTask at hrun
      rw [statusAt_updateTcb] at hrun
      by_cases hc : 0 = i ∧ 0 < (initState apps).tasks.length
      · exact hc.1.symm
      · rw [if_neg hc] at hrun
        have hready : statusAt (initState apps) i = TaskStatus.Ready :=
          statusAt_initState apps i (by simpa [initState] using hi2)
        rw [hready] at hrun
        exact absurd hrun (by decide)
    · show statusAt (runFirstTask (initState apps) now) 0 = TaskStatus.Running
      unfold runFirstTask
      rw [statusAt_updateTcb, if_pos ⟨rfl, hlen⟩]
    · show (runFirstTask (initState apps) now).current_task <
        (runFirstTask (initState apps) now).tasks.length
      unfold runFirstTask
      rw [tasks_updateTcb]
      exact hlen
  | stepSuspend s s2 now hs hr ih =>
    have h2 : statusAt (markCurrentSuspended s)
        (markCurrentSuspended s).current_task ≠ TaskStatus.Running := by
      show statusAt (markCurrentSuspended s) s.current_task ≠ TaskStatus.Running
      unfold markCurrentSuspended
      rw [statusAt_updateTcb, if_pos ⟨rfl, ih.2.2⟩]
      intro hcon
      have hcon2 : TaskStatus.Ready = TaskStatus.Running := hcon
      exact absurd hcon2 (by decide)
    obtain ⟨i1, i2, i3, _⟩ :=
      inv_runNextTask (markCurrentSuspended s) now s2
        (inv_markCurrentSuspended s ih.1) h2 hr
    exact ⟨i1, i2, i3⟩
  | stepExit s s2 now hs hr ih =>
    have h2 : statusAt (markCurrentExited s)
        (markCurrentExited s).current_task ≠ TaskStatus.Running := by
      show statusAt (markCurrentExited s) s.current_task ≠ TaskStatus.Running
      unfold markCurrentExited
      rw [statusAt_updateTcb, if_pos ⟨rfl, ih.2.2⟩]
      intro hcon
      have hcon2 : TaskStatus.Exited = TaskStatus.Running := hcon
      exact absurd hcon2 (by decide)
    obtain ⟨i1, i2, i3, _⟩ :=
      inv_runNextTask (markCurrentExited s) now s2
        (inv_markCurrentExited s ih.1) h2 hr
    exact ⟨i1, i2, i3⟩
  | stepCount s id hs ih =>
    have hkeep : ∀ j, statusAt (updateSyscallTime s id) j = statusAt s j := by
      intro j
      exact statusAt_updateTcb_keep s s.current_task _ j (fun t => rfl)
    have hlen : (updateSyscallTime s id).tasks.length = s.tasks.length := by
      unfold updateSyscallTime
      rw [tasks_updateTcb]
    refine ⟨?_, ?_, ?_⟩
    · intro i hi hrun
      rw [hkeep] at hrun
      rw [hlen] at hi
      show i = s.current_task
      exact ih.1 i hi hrun
    · show statusAt (updateSyscallTime s id) s.current_task = TaskStatus.Running
      rw [hkeep]
      exact ih.2.1
    · show s.current_task < (updateSyscallTime s id).tasks.length
      rw [hlen]
      exact ih.2.2
  | stepMem s ms hs ih =>
    have hkeep : ∀ j,
        statusAt (updateTcb s s.current_task (fun t => { t with memory_set := ms })) j =
          statusAt s j := by
      intro j
      exact statusAt_updateTcb_keep s s.current_task _ j (fun t => rfl)
    refine ⟨?_, ?_, ?_⟩
    · intro i hi hrun
      rw [hkeep] at hrun
      rw [tasks_updateTcb] at hi
      show i = s.current_task
      exact ih.1 i hi hrun
    · show statusAt _ s.current_task = TaskStatus.Running
      rw [hkeep]
      exact ih.2.1
    · show s.current_task < _
      rw [tasks_updateTcb]
      exact ih.2.2

/-! ### C4: the single-Running-owner invariant -/

/-- C4: in every state reachable once scheduling has started, at most one
Task Control Block is `Running` and the current task index points at it;
`mark_current_suspended` and `mark_current_exited` preserve the
invariant, and `run_next_task` (entered, as in the kernel, only after the
current task has been marked non-`Running`) re-establishes it. -/
theorem runningOwnerSpec :
    (∀ tm, Inv tm → Inv (markCurrentSuspended tm)) ∧
    (∀ tm, Inv tm → Inv (markCurrentExited tm)) ∧
    (∀ tm now tm2, Inv tm → statusAt tm tm.current_task ≠ TaskStatus.Running →
      runNextTask tm now = some tm2 →
      Inv tm2 ∧ statusAt tm2 tm2.current_task = TaskStatus.Running) ∧
    (∀ tm, Reachable tm →
      Inv tm ∧ statusAt tm tm.current_task = TaskStatus.Running) :=
  ⟨inv_markCurrentSuspended, inv_markCurrentExited,
    fun tm now tm2 h hnr hr =>
      ⟨(inv_runNextTask tm now tm2 h hnr hr).1,
       (inv_runNextTask tm now tm2 h hnr hr).2.1⟩,
    fun tm h => ⟨(reachable_good tm h).1, (reachable_good tm h).2.1⟩⟩

/-! ### C8: per-task syscall counters -/

theorem getSysTaskInfo_times (tm : TaskManagerInner) (now : Nat) :
    (getSysTaskInfo tm now).syscall_times =
      (getTcb tm tm.current_task).syscall_times := rfl

/-- Folding the per-invocation counter bump over a list of syscall ids
adds the number of occurrences, modulo the `u32` width. -/
theorem foldl_syscall_count (X : Nat) :
    ∀ (ids : List Nat) (tm : TaskManagerInner),
      tm.current_task < tm.tasks.length →
      (getTcb tm tm.current_task).syscall_times X < 2 ^ 32 →
      (getTcb (List.foldl updateSyscallTime tm ids)
          (List.foldl updateSyscallTime tm ids).current_task).syscall_times X =
        ((getTcb tm tm.current_task).syscall_times X + ids.count X) % 2 ^ 32 := by
  intro ids
  induction ids with
  | nil =>
    intro tm hc hv
    show (getTcb tm tm.current_task).syscall_times X =
      ((getTcb tm tm.current_task).syscall_times X + List.count X []) % 2 ^ 32
    rw [List.count_nil, Nat.add_zero, Nat.mod_eq_of_lt hv]
  | cons id ids ih =>
    intro tm hc hv
    rw [List.foldl_cons]
    have hcur : (updateSyscallTime tm id).current_task = tm.current_task := rfl
    have hlen : (updateSyscallTime tm id).tasks.length = tm.tasks.length := by
      unfold updateSyscallTime
      rw [tasks_updateTcb]
    have hval : (getTcb (updateSyscallTime tm id)
        (updateSyscallTime tm id).current_task).syscall_times X =
        if X = id then ((getTcb tm tm.current_task).syscall_times id + 1) % 2 ^ 32
        else (getTcb tm tm.current_task).syscall_times X := by
      show (getTcb (updateTcb tm tm.current_task (fun t =>
        { t with syscall_times := fun j =>
            if j = id then (t.syscall_times id + 1) % 2 ^ 32
            else t.syscall_times j })) tm.current_task).syscall_times X = _
      rw [getTcb_updateTcb, if_pos ⟨rfl, hc⟩]
    by_cases hX : X = id
    · have hnew := ih (updateSyscallTime tm id)
        (by rw [hcur, hlen]; exact hc)
        (by rw [hval, if_pos hX]; exact Nat.mod_lt _ (by norm_num))
      rw [hnew, hval, if_pos hX, ← hX, List.count_cons_self, Nat.mod_add_mod]
      congr 1
      omega
    · have hnew := ih (updateSyscallTime tm id)
        (by rw [hcur, hlen]; exact hc)
        (by rw [hval, if_neg hX]; exact hv)
      rw [hnew, hval, if_neg hX, List.count_cons_of_ne hX]

/-- C8 (amended): after a task whose counters start at zero performs the
syscalls `ids`, `task_info` reports, for syscall `X` invoked `k` times
with `k < 2 ^ 32`, a counter of exactly `k` — and hence 0 for syscalls
never invoked.  (The counters are 32-bit and wrap at `2 ^ 32`.) -/
theorem syscallCountSpec (ids : List Nat) (tm : TaskManagerInner) (now X : Nat)
    (hc : tm.current_task < tm.tasks.length)
    (h0 : ∀ Y, (getTcb tm tm.current_task).syscall_times Y = 0)
    (hk : ids.count X < 2 ^ 32) :
    (getSysTaskInfo (List.foldl updateSyscallTime tm ids) now).syscall_times X =
      ids.count X := by
  have h := foldl_syscall_count X ids tm hc (by rw [h0]; norm_num)
  show (getTcb (List.foldl updateSyscallTime tm ids)
      (List.foldl updateSyscallTime tm ids).current_task).syscall_times X = ids.count X
  rw [h, h0, Nat.zero_add]
  exact Nat.mod_eq_of_lt hk

def tmEx4 : TaskManagerInner := { tasks := [tcbRunningEx], current_task := 0 }

/-- Witness for C8: two invocations of syscall 64 and one of 93 report a
count of 2 for 64 and 0 for the never-invoked syscall 169. -/
theorem syscallCountSpec_witness :
    (getSysTaskInfo (List.foldl updateSyscallTime tmEx4 [64, 64, 93]) 0).syscall_times 64 =
      [64, 64, 93].count 64 ∧
    (getSysTaskInfo (List.foldl updateSyscallTime tmEx4 [64, 64, 93]) 0).syscall_times 169 =
      [64, 64, 93].count 169 :=
  ⟨syscallCountSpec [64, 64, 93] tmEx4 0 64 (by decide) (fun _ => rfl) (by decide),
   syscallCountSpec [64, 64, 93] tmEx4 0 169 (by decide) (fun _ => rfl) (by decide)⟩

/-- Counterexample to C8 as stated: after exactly `2 ^ 32` invocations of
syscall 64, the report is 0, not `2 ^ 32` — the `u32` counter wraps. -/
theorem syscallCountSpec_counterexample :
    (getSysTaskInfo (List.foldl updateSyscallTime tmEx4
        (List.replicate (2 ^ 32) 64)) 0).syscall_times 64 = 0 ∧
    (List.replicate (2 ^ 32) 64).count 64 = 2 ^ 32 ∧
    (0 : Nat) ≠ 2 ^ 32 := by
  refine ⟨?_, List.count_replicate_self 64 (2 ^ 32), by norm_num⟩
  have h := foldl_syscall_count 64 (List.replicate (2 ^ 32) 64) tmEx4
    (by decide) (by decide)
  rw [getSysTaskInfo_times, h, List.count_replicate_self]
  show ((0 : Nat) + 2 ^ 32) % 2 ^ 32 = 0
  norm_num

/-! ### Witnesses for the scheduler claims -/

def tmEx3 : TaskManagerInner := { tasks := [tcbReadyEx], current_task := 0 }

/-- Witness for C9: booting a fresh task list stamps task 0's
first-scheduled time. -/
theorem startTimeSpec_witness :
    (getTcb (runFirstTask tmEx3 42) 0).start_time = some 42 :=
  startTimeSpec.2.2.1 tmEx3 42 (by decide) (by decide)

/-- Witness for C4: suspending the current task of a concrete two-task
state preserves the single-owner invariant. -/
theorem runningOwnerSpec_witness : Inv (markCurrentSuspended tmEx2) :=
  runningOwnerSpec.1 tmEx2 (fun i hi hrun => by
    have h2 : i < 2 := hi
    interval_cases i
    · rfl
    · exact absurd hrun (by decide))

/-! ### C6: translation through the current task's page table -/

/-- C6: for a virtual address whose floor page is mapped, `get_pa`
returns the mapped physical page's base address plus the in-page offset,
and its failure branch is unreachable; for an unmapped floor page the
translation fails. -/
theorem getPaSpec (ms : MemorySet) (va : Nat) :
    (findPte ms (floorVpn va) = none → getPa ms va = none) ∧
    (∀ pte, findPte ms (floorVpn va) = some pte →
      getPa ms va = some (pte.ppn * PAGE_SIZE + pageOffset va)) := by
  constructor
  · intro h
    simp [getPa, h]
  · intro pte h
    simp [getPa, h, Nat.add_comm]

def msEx : MemorySet := fun vpn => if vpn = 2 then some { ppn := 5, perm := 0 } else none

/-- Witness for C6 at a mapped and an unmapped address. -/
theorem getPaSpec_witness :
    getPa msEx 0x2345 = some (5 * PAGE_SIZE + pageOffset 0x2345) ∧
    getPa msEx 0x5000 = none :=
  ⟨(getPaSpec msEx 0x2345).2 { ppn := 5, perm := 0 } (by decide),
   (getPaSpec msEx 0x5000).1 (by decide)⟩

/-! ### C7: sys_get_time -/

/-- C7: for every sampled microsecond count, `sys_get_time` writes
`{sec = us / 1000000, usec = us % 1000000}` at the translated address and
returns 0; the two fields recombine to the exact counter value, the
microsecond field is below one million, and the timezone argument has no
effect. -/
theorem getTimeSpec (ms : MemorySet) (ts us tz : Nat) (pte : PageTableEntry)
    (h : findPte ms (floorVpn ts) = some pte) :
    sysGetTime ms ts us tz =
      some (pageOffset ts + pte.ppn * PAGE_SIZE,
            { sec := us / 1000000, usec := us % 1000000 }, 0) ∧
    (us / 1000000) * 1000000 + us % 1000000 = us ∧
    us % 1000000 < 1000000 ∧
    ∀ tz2, sysGetTime ms ts us tz2 = sysGetTime ms ts us tz := by
  refine ⟨?_, by omega, by omega, fun tz2 => rfl⟩
  simp [sysGetTime, getPa, h]

/-- Witness for C7: a concrete counter sample through a mapped pointer. -/
theorem getTimeSpec_witness :
    sysGetTime msEx 0x2345 3456789 0 =
      some (pageOffset 0x2345 + 5 * PAGE_SIZE,
            { sec := 3456789 / 1000000, usec := 3456789 % 1000000 }, 0) ∧
    (3456789 / 1000000) * 1000000 + 3456789 % 1000000 = 3456789 ∧
    3456789 % 1000000 < 1000000 ∧
    ∀ tz2, sysGetTime msEx 0x2345 3456789 tz2 = sysGetTime msEx 0x2345 3456789 0 :=
  getTimeSpec msEx 0x2345 3456789 0 { ppn := 5, perm := 0 } (by decide)

/-! ### C10: the status field of the task-info snapshot -/

/-- C10: `get_sys_task_info` always writes the constant `Running` into
the status field, and the snapshot is independent of the status stored in
the current Task Control Block. -/
theorem taskInfoStatusSpec (tm : TaskManagerInner) (now : Nat) :
    (getSysTaskInfo tm now).status = TaskStatus.Running ∧
    ∀ st, getSysTaskInfo
        (updateTcb tm tm.current_task (fun t => { t with task_status := st })) now
      = getSysTaskInfo tm now := by
  refine ⟨rfl, fun st => ?_⟩
  by_cases h : tm.current_task < tm.tasks.length <;>
    simp [getSysTaskInfo, getTcb_updateTcb, current_updateTcb, h]

end OS4
